import Mathlib

/-!
Shallow embedding of the sfuzz serial-port fuzzer (main.py and micromill.py)
together with theorems that settle the specification claims about it.

Randomness is modelled by explicit oracles: each call that the Python code
makes to the random module consumes a value from a caller-supplied stream
(a function from draw index to natural number), reduced modulo the size of
the range the code draws from.  Wall-clock time is modelled by explicit
timestamps (natural numbers, e.g. milliseconds) carried by the events of a
read trace.
-/

/-- Embeds main.py `tobytes`: on the string branch it builds the byte list
`[ord(c) for c in buff]`, taking a character to its code point. -/
def tobytes (buff : List Char) : List Nat :=
  buff.map Char.toNat

/-- Embeds main.py `tostr`: on the bytes branch it joins `[chr(b) for b in buff]`,
taking a code point back to its character. -/
def tostr (buff : List Nat) : List Char :=
  buff.map Char.ofNat

/-!
### `SFuzz.flushInput` — the quiescent drain (main.py, lines 303-312)

The Python loop is

    tlast = time.time()
    ret = bytearray()
    while time.time() - tlast < timeout and len(ret) < max_size:
        buf = self.ser.read(max_size)
        if buf:
            ret += buf
            tlast = time.time()
    return ret

We model the environment (wall clock plus serial port) as a trace of read
events.  Each event records the clock value sampled at the `while` condition
check that precedes the read, the bytes the read returned, and the clock
value sampled right after the read (which becomes the new `tlast` when the
read returned bytes).  The function walks the trace until the condition
fails; the `exitAt` field records the clock value of the failing check,
`none` meaning the trace ended while the loop was still running.
-/

/-- One iteration of the drain loop as seen from the environment: the time at
the `while` condition check, the bytes `ser.read` returned, and the time
sampled after the read. -/
structure ReadEv where
  tCheck : Nat
  buf : List Nat
  tRead : Nat
deriving Repr, DecidableEq

/-- Outcome of a drain: the accumulated bytes (the Python return value), the
final `tlast`, and the time of the condition check at which the loop exited
(`none` when the trace was exhausted while the condition still held). -/
structure DrainOut where
  ret : List Nat
  tlast : Nat
  exitAt : Option Nat
deriving Repr, DecidableEq

/-- The drain loop of `SFuzz.flushInput`, walking a read trace from a given
`tlast` and accumulator. -/
def flushAux (timeout maxSize : Nat) : List ReadEv → Nat → List Nat → DrainOut
  | [], tlast, ret => ⟨ret, tlast, none⟩
  | e :: es, tlast, ret =>
    if e.tCheck - tlast < timeout ∧ ret.length < maxSize then
      if e.buf.isEmpty then flushAux timeout maxSize es tlast ret
      else flushAux timeout maxSize es e.tRead (ret ++ e.buf)
    else ⟨ret, tlast, some e.tCheck⟩

/-- Embeds `SFuzz.flushInput(timeout, max_size)` called at time `t0`:
`tlast` starts at the call time and the accumulator starts empty. -/
def flushInput (timeout maxSize t0 : Nat) (evs : List ReadEv) : DrainOut :=
  flushAux timeout maxSize evs t0 []

/-!
### `SFuzz.get_tx`, ASCII mode (main.py, lines 353-365)

`rand_ascii(n)` draws `n` characters from
`string.ascii_uppercase + string.digits`; each `random.choice` is modelled by
one oracle value reduced modulo the 36-element alphabet.  When
`self.ascii_newlines` is non-empty, a terminator is chosen (`nlDraw` modulo
the list length) and the code returns
`rand_ascii(chunk_size - len(newline)) + newline`; Python's `range` of a
negative number is empty, exactly like truncated subtraction on `Nat`.
-/

/-- The alphabet `string.ascii_uppercase + string.digits` (26 uppercase
letters followed by 10 digits). -/
def asciiUppercaseDigits : List Char :=
  ['A', 'B', 'C', 'D', 'E', 'F', 'G', 'H', 'I', 'J', 'K', 'L', 'M',
   'N', 'O', 'P', 'Q', 'R', 'S', 'T', 'U', 'V', 'W', 'X', 'Y', 'Z',
   '0', '1', '2', '3', '4', '5', '6', '7', '8', '9']

/-- Embeds the inner `rand_ascii(n)` of `SFuzz.get_tx`. -/
def rand_ascii (draw : Nat → Nat) (n : Nat) : List Char :=
  (List.range n).map (fun i => asciiUppercaseDigits.getD (draw i % 36) 'A')

/-- The `self.ascii_newlines` set fixed in `SFuzz.__init__`:
`["\r", "\n", "\r\n"]`. -/
def sfuzzAsciiNewlines : List (List Char) :=
  [['\r'], ['\n'], ['\r', '\n']]

/-- Embeds the ASCII branch of `SFuzz.get_tx(chunk_size)`: pick a newline
when the configured set is non-empty, fill the rest with `rand_ascii`, and
convert with `tobytes`. -/
def sfGetTxAscii (newlines : List (List Char)) (nlDraw : Nat) (draw : Nat → Nat)
    (chunkSize : Nat) : List Nat :=
  if newlines.isEmpty then tobytes (rand_ascii draw chunkSize)
  else
    tobytes (rand_ascii draw (chunkSize - (newlines.getD (nlDraw % newlines.length) []).length)
      ++ newlines.getD (nlDraw % newlines.length) [])

/-!
### `MyFuzz.get_tx`, binary mode (micromill.py, lines 54-68)

The binary branch draws `chunk_size` bytes with `random.randint(0, 127)`
inside `while True`, and `continue`s (regenerates the whole frame) whenever
the frame contains 0x03 or 0x83, 0x1B or 0x9B, or one of `*`, `X`, `Y`, `Z`.
The loop has no retry cap and no error path; we give it an explicit attempt
budget (`fuel`) so that `none` means "the loop is still spinning after that
many attempts".  Attempt `k` consumes oracle values `k*chunk_size + i`.
-/

/-- The retry loop of the binary `MyFuzz.get_tx`, with an explicit attempt
budget. -/
def mmGetTxBinAux (draw : Nat → Nat) (chunkSize : Nat) : Nat → Nat → Option (List Nat)
  | _, 0 => none
  | attempt, fuel + 1 =>
    let ret := (List.range chunkSize).map (fun i => draw (attempt * chunkSize + i) % 128)
    if 3 ∈ ret ∨ 131 ∈ ret then mmGetTxBinAux draw chunkSize (attempt + 1) fuel
    else if 27 ∈ ret ∨ 155 ∈ ret then mmGetTxBinAux draw chunkSize (attempt + 1) fuel
    else if 42 ∈ ret ∨ 88 ∈ ret ∨ 89 ∈ ret ∨ 90 ∈ ret then
      mmGetTxBinAux draw chunkSize (attempt + 1) fuel
    else some ret

/-- Embeds the binary branch of `MyFuzz.get_tx(chunk_size)`: the retry loop
started at attempt 0. -/
def mmGetTxBin (draw : Nat → Nat) (chunkSize fuel : Nat) : Option (List Nat) :=
  mmGetTxBinAux draw chunkSize 0 fuel

/-!
### Transport configuration and `SFuzz.mkser` (main.py, lines 328-350)

`mkser` closes the current `serial.Serial` object (when one exists) and then
constructs a new one with the requested parameters.  We track `self.ser` as
an optional configuration and record the close/open side effects as an event
trace; `applyEvents` replays a trace against the multiset of OS-level open
channels.
-/

/-- Parity values (`serial.PARITY_*`). -/
inductive Parity
  | pnone
  | peven
  | podd
  | pmark
  | pspace
deriving Repr, DecidableEq

/-- Stop-bit values (`serial.STOPBITS_*`). -/
inductive StopBits
  | one
  | onePointFive
  | two
deriving Repr, DecidableEq

/-- A transport configuration: the parameters `mkser` passes to
`serial.Serial`. -/
structure SerCfg where
  baudrate : Nat
  parity : Parity
  stopbits : StopBits
  rtscts : Bool
  dsrdtr : Bool
  xonxoff : Bool
deriving Repr, DecidableEq

/-- A side effect on the underlying serial resource. -/
inductive SerEvent
  | closeEv (c : SerCfg)
  | openEv (c : SerCfg)
deriving Repr, DecidableEq

/-- Embeds `SFuzz.mkser`: close the current channel if one is open, then
open a new channel with the requested configuration.  Returns the new
`self.ser` and the emitted event trace, in order. -/
def mkser (ser : Option SerCfg) (c : SerCfg) : Option SerCfg × List SerEvent :=
  match ser with
  | some old => (some c, [SerEvent.closeEv old, SerEvent.openEv c])
  | none => (some c, [SerEvent.openEv c])

/-- Remove the first occurrence of a configuration from the open-channel
list (the effect of `close` on the OS resource). -/
def removeFirst : List SerCfg → SerCfg → List SerCfg
  | [], _ => []
  | x :: xs, c => if x = c then xs else x :: removeFirst xs c

/-- Replay one event against the list of open channels. -/
def applyEvent (chans : List SerCfg) : SerEvent → List SerCfg
  | SerEvent.closeEv c => removeFirst chans c
  | SerEvent.openEv c => chans ++ [c]

/-- Replay a trace against the list of open channels. -/
def applyEvents (chans : List SerCfg) (evs : List SerEvent) : List SerCfg :=
  evs.foldl applyEvent chans

/-!
### The fuzz loop `SFuzz.run` (main.py, lines 402-445)

One loop iteration transmits a frame `tx` and drains a response `rx`.  The
loop counts `tx_bytes` every iteration and, only when `rx` is non-empty,
counts `rx_bytes` and emits a transcript block (the config line printed with
the loop-local variables `baudrate`, `parity`, `stopbits` — set to `None`
before the loop and never reassigned — followed by the hex dumps of `tx` and
`rx` and the literal-bytes renderings).  We model one iteration's I/O as a
`RoundTrip` and the emitted transcript blocks as `LogEntry` values.
-/

/-- One iteration's I/O: the transmitted frame and the drained response. -/
structure RoundTrip where
  tx : List Nat
  rx : List Nat
deriving Repr, DecidableEq

/-- One transcript block emitted for a responsive iteration: the three
loop-local config variables as printed, plus the frame and the response. -/
structure LogEntry where
  baudrate : Option Nat
  parity : Option Parity
  stopbits : Option StopBits
  tx : List Nat
  rx : List Nat
deriving Repr, DecidableEq

/-- The mutable state of `SFuzz.run`: iteration counter, cumulative byte
counters, the three loop-local config variables, and the transcript. -/
structure RunState where
  itr : Nat
  txBytes : Nat
  rxBytes : Nat
  baudrate : Option Nat
  parity : Option Parity
  stopbits : Option StopBits
  log : List LogEntry
deriving Repr, DecidableEq

/-- `open_interval` constant of `SFuzz.run`. -/
def open_interval : Nat := 10

/-- `print_interval` constant of `SFuzz.run`. -/
def print_interval : Nat := 80

/-- One iteration of the `while True` body of `SFuzz.run`: always count the
transmitted bytes; on `if not len(rx): continue` skip the rest; otherwise
count the received bytes and append a transcript block built from the
loop-local config variables. -/
def runStep (s : RunState) (r : RoundTrip) : RunState :=
  if r.rx.isEmpty then
    { s with itr := s.itr + 1, txBytes := s.txBytes + r.tx.length }
  else
    { s with
        itr := s.itr + 1,
        txBytes := s.txBytes + r.tx.length,
        rxBytes := s.rxBytes + r.rx.length,
        log := s.log ++ [⟨s.baudrate, s.parity, s.stopbits, r.tx, r.rx⟩] }

/-- The state at loop entry: counters zero, the three loop-local config
variables `None`, no transcript. -/
def runInit : RunState := ⟨0, 0, 0, none, none, none, []⟩

/-- `SFuzz.run` over a finite list of iterations. -/
def runLoop (ios : List RoundTrip) : RunState := ios.foldl runStep runInit

/-!
### `SFuzz.__init__` candidate lists (main.py, lines 277-301) and the
`--aggressive` lists of `main()` (lines 467-475)

`__init__` sets the three flow-control candidate lists to singletons and the
baud/parity/stop-bit candidate lists to full multi-value lists, then
overrides each of the latter only when the corresponding argument is not
`None`.  `main()` passes `None` for parities and stop bits unless
`--aggressive` is given, in which case it passes lists identical to the
`__init__` defaults.
-/

/-- The `self.baudrates` list set unconditionally in `SFuzz.__init__`. -/
def defaultBaudrates : List Nat := [9600, 19200, 38400, 115200]

/-- The `self.parities` list set unconditionally in `SFuzz.__init__`. -/
def defaultParities : List Parity :=
  [Parity.pnone, Parity.peven, Parity.podd, Parity.pmark, Parity.pspace]

/-- The `self.stopbitss` list set unconditionally in `SFuzz.__init__`. -/
def defaultStopbitss : List StopBits :=
  [StopBits.one, StopBits.onePointFive, StopBits.two]

/-- The candidate lists a constructed `SFuzz` holds. -/
structure SweepLists where
  rtsctss : List Bool
  dsrdtrs : List Bool
  xonxoffs : List Bool
  baudrates : List Nat
  parities : List Parity
  stopbitss : List StopBits
deriving Repr, DecidableEq

/-- Embeds the candidate-list part of `SFuzz.__init__(baudrates, parities,
stopbitss)`: flow-control lists are singletons; the other three lists start
at the full defaults and are replaced only when the argument is not
`None`. -/
def sfuzzInit (baudrates : Option (List Nat)) (parities : Option (List Parity))
    (stopbitss : Option (List StopBits)) : SweepLists :=
  { rtsctss := [false],
    dsrdtrs := [false],
    xonxoffs := [false],
    baudrates := baudrates.getD defaultBaudrates,
    parities := parities.getD defaultParities,
    stopbitss := stopbitss.getD defaultStopbitss }

/-- The parity list `main()` passes under `--aggressive`. -/
def mainAggressiveParities : List Parity :=
  [Parity.pnone, Parity.peven, Parity.podd, Parity.pmark, Parity.pspace]

/-- The stop-bit list `main()` passes under `--aggressive`. -/
def mainAggressiveStopbitss : List StopBits :=
  [StopBits.one, StopBits.onePointFive, StopBits.two]

/-- For code points below 256 (the only values a Python `bytearray` holds),
`chr` followed by `ord` is the identity. -/
theorem toNat_ofNat_of_lt256 {n : Nat} (h : n < 256) : (Char.ofNat n).toNat = n := by
  have hv : n.isValidChar := Or.inl (by omega)
  rw [Char.ofNat, dif_pos hv]
  rfl

/-- C9: the byte/string conversion helpers are mutually inverse: for every
byte sequence `b` with all values below 256, `tobytes (tostr b) = b`, and for
every string `s` of characters with code points below 256,
`tostr (tobytes s) = s`. -/
theorem tobytes_tostr_inverse :
    (∀ b : List Nat, (∀ x ∈ b, x < 256) → tobytes (tostr b) = b) ∧
    (∀ s : List Char, (∀ c ∈ s, c.toNat < 256) → tostr (tobytes s) = s) := by
  constructor
  · intro b hb
    unfold tobytes tostr
    rw [List.map_map]
    have h : ∀ x ∈ b, (Char.toNat ∘ Char.ofNat) x = id x := by
      intro x hx
      simpa using toNat_ofNat_of_lt256 (hb x hx)
    rw [List.map_congr_left h, List.map_id]
  · intro s hs
    unfold tobytes tostr
    rw [List.map_map]
    have h : ∀ c ∈ s, (Char.ofNat ∘ Char.toNat) c = id c := by
      intro c hc
      simp [Char.ofNat_toNat]
    rw [List.map_congr_left h, List.map_id]

/-- Witness for `tobytes_tostr_inverse` at concrete inputs. -/
theorem tobytes_tostr_inverse_witness :
    ((∀ x ∈ ([0, 65, 255] : List Nat), x < 256) ∧
      tobytes (tostr [0, 65, 255]) = [0, 65, 255]) ∧
    ((∀ c ∈ (['A', 'Z', '0'] : List Char), c.toNat < 256) ∧
      tostr (tobytes ['A', 'Z', '0']) = ['A', 'Z', '0']) :=
  ⟨⟨by decide, tobytes_tostr_inverse.1 [0, 65, 255] (by decide)⟩,
   ⟨by decide, tobytes_tostr_inverse.2 ['A', 'Z', '0'] (by decide)⟩⟩

/-- C2 counterexample: calling the drain with `timeout = 100` and second
parameter `2` on a port that yields one byte at t=0 and one byte at t=90,
then goes silent, the loop exits at the t=200 check with both bytes — a
wall-clock duration of 200, far beyond 2.  The second parameter is a cap on
accumulated bytes (`max_size`), not a bound on total elapsed time, so the
claim that total duration never exceeds `maxWindow` fails. -/
theorem flushInput_window_cex :
    flushInput 100 2 0 [⟨0, [65], 0⟩, ⟨90, [66], 90⟩, ⟨200, [], 0⟩] =
      ⟨[65, 66], 90, some 200⟩ ∧ 0 + 2 < 200 := by
  constructor
  · rfl
  · decide

/-- C2 (amended): whenever the drain loop exits (rather than the trace
running out), at the exiting check either `timeout` has elapsed since the
last activity or the accumulated bytes have reached `max_size`; the
accumulated bytes are returned as-is.  The result is the loop state at the
first check failing this disjunction. -/
theorem flushInput_stops_idle_or_cap :
    ∀ (timeout maxSize : Nat) (evs : List ReadEv) (tlast : Nat) (acc : List Nat) (tc : Nat),
      (flushAux timeout maxSize evs tlast acc).exitAt = some tc →
      timeout ≤ tc - (flushAux timeout maxSize evs tlast acc).tlast ∨
        maxSize ≤ (flushAux timeout maxSize evs tlast acc).ret.length := by
  intro timeout maxSize evs
  induction evs with
  | nil => intro tlast acc tc h; simp [flushAux] at h
  | cons e es ih =>
    intro tlast acc tc h
    by_cases hc : e.tCheck - tlast < timeout ∧ acc.length < maxSize
    · by_cases hb : e.buf.isEmpty
      · rw [flushAux, if_pos hc, if_pos hb] at h ⊢
        exact ih tlast acc tc h
      · rw [flushAux, if_pos hc, if_neg hb] at h ⊢
        exact ih e.tRead (acc ++ e.buf) tc h
    · rw [flushAux, if_neg hc] at h ⊢
      simp only [Option.some.injEq] at h
      subst h
      show timeout ≤ e.tCheck - tlast ∨ maxSize ≤ acc.length
      omega

/-- Witness for `flushInput_stops_idle_or_cap` at a concrete trace: a single
silent check at t=200 with `timeout = 100` exits there. -/
theorem flushInput_stops_idle_or_cap_witness :
    (flushAux 100 1024 [⟨200, [], 0⟩] 0 []).exitAt = some 200 ∧
      (100 ≤ 200 - (flushAux 100 1024 [⟨200, [], 0⟩] 0 []).tlast ∨
        1024 ≤ (flushAux 100 1024 [⟨200, [], 0⟩] 0 []).ret.length) :=
  ⟨by decide, flushInput_stops_idle_or_cap 100 1024 [⟨200, [], 0⟩] 0 [] 200 (by decide)⟩

set_option maxRecDepth 20000 in
/-- C4 counterexample: with the program's actual call parameters
(`timeout = 100`, `max_size = 1024`), a port that hands over 1024 bytes in one
read at t=5 makes the next check (t=10) exit although only 5 time units have
passed since the last activity — the drain returns while
`now - last_activity < idleTimeout`, because `len(ret) < max_size` failed. -/
theorem flushInput_cap_exit_cex :
    (flushInput 100 1024 0 [⟨0, List.replicate 1024 65, 5⟩, ⟨10, [], 0⟩]).exitAt = some 10 ∧
    (flushInput 100 1024 0 [⟨0, List.replicate 1024 65, 5⟩, ⟨10, [], 0⟩]).tlast = 5 ∧
    10 - 5 < 100 := by
  refine ⟨?_, ?_, by decide⟩ <;> rfl

/-- On a trace that never delivers bytes, the drain accumulator stays as it
started and `tlast` is never reset. -/
theorem flushAux_all_empty (timeout maxSize : Nat) :
    ∀ (evs : List ReadEv) (tlast : Nat) (acc : List Nat),
      (∀ e ∈ evs, e.buf = []) →
      (flushAux timeout maxSize evs tlast acc).ret = acc ∧
      (flushAux timeout maxSize evs tlast acc).tlast = tlast := by
  intro evs
  induction evs with
  | nil => intro tlast acc _; exact ⟨rfl, rfl⟩
  | cons e es ih =>
    intro tlast acc h
    have hb : e.buf = [] := h e (List.mem_cons_self e es)
    by_cases hc : e.tCheck - tlast < timeout ∧ acc.length < maxSize
    · rw [flushAux, if_pos hc, if_pos (by simp [hb])]
      exact ih tlast acc (fun x hx => h x (List.mem_cons_of_mem e hx))
    · rw [flushAux, if_neg hc]
      exact ⟨rfl, rfl⟩

/-- On a silent channel the drain exits, empty-handed, at the first condition
check whose clock value is at least `timeout` past the call time. -/
theorem flushAux_silent_exit (timeout maxSize t0 : Nat) :
    ∀ (pre : List ReadEv) (e : ReadEv) (post : List ReadEv),
      0 < maxSize →
      (∀ x ∈ pre, x.buf = [] ∧ x.tCheck - t0 < timeout) →
      timeout ≤ e.tCheck - t0 →
      flushAux timeout maxSize (pre ++ e :: post) t0 [] = ⟨[], t0, some e.tCheck⟩ := by
  intro pre
  induction pre with
  | nil =>
    intro e post _ _ he
    rw [List.nil_append, flushAux, if_neg (fun hcon => Nat.not_lt.mpr he hcon.1)]
  | cons x pre ih =>
    intro e post hms hpre he
    have hx := hpre x (List.mem_cons_self x pre)
    rw [List.cons_append, flushAux, if_pos ⟨hx.2, by simpa using hms⟩,
      if_pos (by simp [hx.1])]
    exact ih e post hms (fun y hy => hpre y (List.mem_cons_of_mem x hy)) he

/-- Scenario: one byte at t=0, one at t=50, idle timeout 100; as long as the
current check happens before t=150 the drain is still running. -/
theorem flush_scn1_pending (t : Nat) (h : t - 50 < 100) :
    (flushAux 100 1024 [⟨0, [97], 0⟩, ⟨50, [98], 50⟩, ⟨t, [], 0⟩] 0 []).exitAt = none := by
  have h1 : flushAux 100 1024 [⟨0, [97], 0⟩, ⟨50, [98], 50⟩, ⟨t, [], 0⟩] 0 [] =
      flushAux 100 1024 [⟨t, [], 0⟩] 50 [97, 98] := rfl
  rw [h1, flushAux, if_pos ⟨h, by decide⟩]
  rfl

/-- Scenario: one byte at t=0, one at t=50, idle timeout 100; the first check
at or after t=150 returns both bytes. -/
theorem flush_scn1_done (t : Nat) (h : 100 ≤ t - 50) :
    flushAux 100 1024 [⟨0, [97], 0⟩, ⟨50, [98], 50⟩, ⟨t, [], 0⟩] 0 [] =
      ⟨[97, 98], 50, some t⟩ := by
  have h1 : flushAux 100 1024 [⟨0, [97], 0⟩, ⟨50, [98], 50⟩, ⟨t, [], 0⟩] 0 [] =
      flushAux 100 1024 [⟨t, [], 0⟩] 50 [97, 98] := rfl
  rw [h1, flushAux, if_neg (fun hcon => Nat.not_lt.mpr h hcon.1)]

/-- C4 (amended): `tlast` starts at the call time and is reset exactly on
reads that return bytes (both visible in `flushAux`/`flushInput`); the drain
returns only once `now - tlast ≥ timeout` **or** the accumulated bytes have
reached `max_size`.  Concretely: (i) a channel that never delivers bytes
yields an empty result; (ii) with bytes at t=0 and t=50 and timeout 100, any
check before t=150 keeps the drain running, (iii) and the first check at or
after t=150 returns both bytes; (iv) on a silent channel the drain exits
empty at the first check at least `timeout` after the call time. -/
theorem flushInput_drain_behavior :
    (∀ (timeout maxSize t0 : Nat) (evs : List ReadEv),
        (∀ e ∈ evs, e.buf = []) → (flushInput timeout maxSize t0 evs).ret = []) ∧
    (∀ t : Nat, t - 50 < 100 →
        (flushInput 100 1024 0 [⟨0, [97], 0⟩, ⟨50, [98], 50⟩, ⟨t, [], 0⟩]).exitAt = none) ∧
    (∀ t : Nat, 100 ≤ t - 50 →
        flushInput 100 1024 0 [⟨0, [97], 0⟩, ⟨50, [98], 50⟩, ⟨t, [], 0⟩] =
          ⟨[97, 98], 50, some t⟩) ∧
    (∀ (timeout maxSize t0 : Nat) (pre : List ReadEv) (e : ReadEv) (post : List ReadEv),
        0 < maxSize →
        (∀ x ∈ pre, x.buf = [] ∧ x.tCheck - t0 < timeout) →
        timeout ≤ e.tCheck - t0 →
        flushInput timeout maxSize t0 (pre ++ e :: post) = ⟨[], t0, some e.tCheck⟩) :=
  ⟨fun timeout maxSize t0 evs h => (flushAux_all_empty timeout maxSize evs t0 [] h).1,
   flush_scn1_pending,
   flush_scn1_done,
   fun timeout maxSize t0 pre e post hms hpre he =>
     flushAux_silent_exit timeout maxSize t0 pre e post hms hpre he⟩

/-- Witness for `flushInput_drain_behavior` at concrete traces. -/
theorem flushInput_drain_behavior_witness :
    (flushInput 100 1024 0 [⟨120, [], 0⟩]).ret = [] ∧
    (flushInput 100 1024 0 [⟨0, [97], 0⟩, ⟨50, [98], 50⟩, ⟨149, [], 0⟩]).exitAt = none ∧
    flushInput 100 1024 0 [⟨0, [97], 0⟩, ⟨50, [98], 50⟩, ⟨150, [], 0⟩] =
      ⟨[97, 98], 50, some 150⟩ ∧
    flushInput 100 1024 0 ([⟨50, [], 0⟩] ++ ⟨160, [], 0⟩ :: []) = ⟨[], 0, some 160⟩ :=
  ⟨flushInput_drain_behavior.1 100 1024 0 [⟨120, [], 0⟩] (by decide),
   flushInput_drain_behavior.2.1 149 (by decide),
   flushInput_drain_behavior.2.2.1 150 (by decide),
   flushInput_drain_behavior.2.2.2 100 1024 0 [⟨50, [], 0⟩] ⟨160, [], 0⟩ []
     (by decide) (by decide) (by decide)⟩

/-- C3 counterexample: requested length 1 with the default terminator set;
when the oracle picks the two-character terminator `"\r\n"`, the generated
frame has 2 characters, not 1 — `rand_ascii(1 - 2)` is empty and the
terminator alone already exceeds the request. -/
theorem ascii_length_cex :
    (sfGetTxAscii sfuzzAsciiNewlines 2 (fun _ => 0) 1).length = 2 ∧
    sfGetTxAscii sfuzzAsciiNewlines 2 (fun _ => 0) 1 = [13, 10] := by
  decide

/-- Every character `rand_ascii` produces is an uppercase letter (code
65-90) or a digit (code 48-57). -/
theorem rand_ascii_alphabet (draw : Nat → Nat) (n : Nat) :
    ∀ c ∈ rand_ascii draw n,
      (65 ≤ c.toNat ∧ c.toNat ≤ 90) ∨ (48 ≤ c.toNat ∧ c.toNat ≤ 57) := by
  intro c hc
  unfold rand_ascii at hc
  obtain ⟨i, _, rfl⟩ := List.mem_map.1 hc
  have hall : ∀ k, k < 36 →
      (65 ≤ (asciiUppercaseDigits.getD k 'A').toNat ∧
        (asciiUppercaseDigits.getD k 'A').toNat ≤ 90) ∨
      (48 ≤ (asciiUppercaseDigits.getD k 'A').toNat ∧
        (asciiUppercaseDigits.getD k 'A').toNat ≤ 57) := by
    decide
  exact hall _ (Nat.mod_lt _ (by norm_num))

/-- The filler has exactly the requested number of characters. -/
theorem rand_ascii_length (draw : Nat → Nat) (n : Nat) :
    (rand_ascii draw n).length = n := by
  unfold rand_ascii
  simp

/-- C3 (amended): for a non-empty terminator set, the ASCII frame is the
chosen terminator appended to an uppercase-or-digit filler; its length is
`max chunkSize (terminator length)` — equal to `chunkSize` exactly when the
requested length is at least the chosen terminator's length. -/
theorem ascii_frame_shape (newlines : List (List Char)) (nlDraw : Nat) (draw : Nat → Nat)
    (chunkSize : Nat) (h : newlines ≠ []) :
    (sfGetTxAscii newlines nlDraw draw chunkSize).length =
      max chunkSize (newlines.getD (nlDraw % newlines.length) []).length ∧
    tobytes (newlines.getD (nlDraw % newlines.length) []) <:+
      sfGetTxAscii newlines nlDraw draw chunkSize ∧
    (∀ b ∈ (sfGetTxAscii newlines nlDraw draw chunkSize).take
        (chunkSize - (newlines.getD (nlDraw % newlines.length) []).length),
      (65 ≤ b ∧ b ≤ 90) ∨ (48 ≤ b ∧ b ≤ 57)) ∧
    ((newlines.getD (nlDraw % newlines.length) []).length ≤ chunkSize →
      (sfGetTxAscii newlines nlDraw draw chunkSize).length = chunkSize) := by
  have hne : newlines.isEmpty = false := by
    cases newlines with
    | nil => exact absurd rfl h
    | cons nl0 nls => rfl
  have hform : sfGetTxAscii newlines nlDraw draw chunkSize =
      tobytes (rand_ascii draw
        (chunkSize - (newlines.getD (nlDraw % newlines.length) []).length)) ++
      tobytes (newlines.getD (nlDraw % newlines.length) []) := by
    unfold sfGetTxAscii
    rw [hne]
    simp only [Bool.false_eq_true, if_false]
    unfold tobytes
    exact List.map_append _ _ _
  have hlenpre : (tobytes (rand_ascii draw
      (chunkSize - (newlines.getD (nlDraw % newlines.length) []).length))).length =
      chunkSize - (newlines.getD (nlDraw % newlines.length) []).length := by
    unfold tobytes
    rw [List.length_map, rand_ascii_length]
  refine ⟨?_, ?_, ?_, ?_⟩
  · rw [hform, List.length_append, hlenpre]
    unfold tobytes
    rw [List.length_map]
    exact Nat.sub_add_eq_max _ _
  · rw [hform]
    exact List.suffix_append _ _
  · intro b hb
    rw [hform, List.take_left' hlenpre] at hb
    unfold tobytes at hb
    obtain ⟨c, hc, rfl⟩ := List.mem_map.1 hb
    exact rand_ascii_alphabet _ _ c hc
  · intro hle
    rw [hform, List.length_append, hlenpre]
    unfold tobytes
    rw [List.length_map]
    omega

/-- Witness for `ascii_frame_shape`: default terminator set, terminator
`"\r"`, requested length 5. -/
theorem ascii_frame_shape_witness :
    sfuzzAsciiNewlines ≠ [] ∧
    (sfGetTxAscii sfuzzAsciiNewlines 0 (fun _ => 0) 5).length =
      max 5 (sfuzzAsciiNewlines.getD (0 % sfuzzAsciiNewlines.length) []).length :=
  ⟨by decide, (ascii_frame_shape sfuzzAsciiNewlines 0 (fun _ => 0) 5 (by decide)).1⟩

/-- C1: the binary generator has no retry cap and no error outcome.  For the
random stream that always draws byte 3 at requested length 1, every attempt
contains the forbidden byte 0x03, so no attempt budget whatsoever makes the
loop return: the code would spin forever instead of failing with a
`GenerationError` (no such error exists anywhere in the code). -/
theorem micromill_binary_no_retry_cap :
    ∀ fuel : Nat, mmGetTxBin (fun _ => 3) 1 fuel = none := by
  have haux : ∀ (fuel attempt : Nat), mmGetTxBinAux (fun _ => 3) 1 attempt fuel = none := by
    intro fuel
    induction fuel with
    | zero => intro attempt; rfl
    | succ n ih => intro attempt; exact ih (attempt + 1)
  intro fuel
  exact haux fuel 0

/-- C10: every frame the binary `MyFuzz.get_tx` returns consists of bytes
below 128 (the high bit is never set) containing none of the denylisted
values 0x03, 0x1B, `*` (42), `X` (88), `Y` (89), `Z` (90). -/
theorem micromill_frame_bytes :
    ∀ (draw : Nat → Nat) (chunkSize fuel : Nat) (ret : List Nat),
      mmGetTxBin draw chunkSize fuel = some ret →
      ∀ b ∈ ret, b < 128 ∧ b ≠ 3 ∧ b ≠ 27 ∧ b ≠ 42 ∧ b ≠ 88 ∧ b ≠ 89 ∧ b ≠ 90 := by
  have haux : ∀ (draw : Nat → Nat) (chunkSize fuel attempt : Nat) (ret : List Nat),
      mmGetTxBinAux draw chunkSize attempt fuel = some ret →
      ∀ b ∈ ret, b < 128 ∧ b ≠ 3 ∧ b ≠ 27 ∧ b ≠ 42 ∧ b ≠ 88 ∧ b ≠ 89 ∧ b ≠ 90 := by
    intro draw chunkSize fuel
    induction fuel with
    | zero => intro attempt ret h; exact Option.noConfusion h
    | succ n ih =>
      intro attempt ret h
      simp only [mmGetTxBinAux] at h
      split at h
      · exact ih (attempt + 1) ret h
      · split at h
        · exact ih (attempt + 1) ret h
        · split at h
          · exact ih (attempt + 1) ret h
          · rename_i h1 h2 h3
            obtain rfl := Option.some.inj h
            intro b hb
            constructor
            · obtain ⟨i, _, rfl⟩ := List.mem_map.1 hb
              exact Nat.mod_lt _ (by norm_num)
            refine ⟨?_, ?_, ?_, ?_, ?_, ?_⟩ <;> intro he <;> subst he
            · exact h1 (Or.inl hb)
            · exact h2 (Or.inl hb)
            · exact h3 (Or.inl hb)
            · exact h3 (Or.inr (Or.inl hb))
            · exact h3 (Or.inr (Or.inr (Or.inl hb)))
            · exact h3 (Or.inr (Or.inr (Or.inr hb)))
  intro draw chunkSize fuel ret h
  exact haux draw chunkSize fuel 0 ret h

/-- Witness for `micromill_frame_bytes`: the all-zero stream passes the
denylist on the first attempt and yields `[0, 0]`, whose bytes satisfy the
invariant. -/
theorem micromill_frame_bytes_witness :
    mmGetTxBin (fun _ => 0) 2 1 = some [0, 0] ∧
    (∀ b ∈ ([0, 0] : List Nat),
      b < 128 ∧ b ≠ 3 ∧ b ≠ 27 ∧ b ≠ 42 ∧ b ≠ 88 ∧ b ≠ 89 ∧ b ≠ 90) :=
  ⟨by decide, micromill_frame_bytes (fun _ => 0) 2 1 [0, 0] (by decide)⟩

/-- C8: applying configuration A and then configuration B leaves exactly one
open channel, carrying B's parameters; the reconfiguration trace closes the
old channel before opening the new one, and in general `mkser` from any
session state yields exactly one open channel with the requested
parameters. -/
theorem mkser_reconfigure :
    ∀ A B : SerCfg,
      (mkser (mkser none A).1 B).1 = some B ∧
      (mkser (mkser none A).1 B).2 = [SerEvent.closeEv A, SerEvent.openEv B] ∧
      applyEvents [] ((mkser none A).2 ++ (mkser (mkser none A).1 B).2) = [B] ∧
      (∀ s : Option SerCfg, (mkser s B).1 = some B ∧
        applyEvents s.toList (mkser s B).2 = [B]) := by
  intro A B
  refine ⟨rfl, rfl, ?_, ?_⟩
  · show applyEvents [] [SerEvent.openEv A, SerEvent.closeEv A, SerEvent.openEv B] = [B]
    simp [applyEvents, applyEvent, removeFirst]
  · intro s
    cases s with
    | none => exact ⟨rfl, by simp [mkser, applyEvents, applyEvent, removeFirst]⟩
    | some old => exact ⟨rfl, by simp [mkser, applyEvents, applyEvent, removeFirst]⟩

/-- Folding `runStep` adds the transmitted frame lengths to `txBytes`. -/
theorem runLoop_fold_txBytes :
    ∀ (ios : List RoundTrip) (s : RunState),
      (List.foldl runStep s ios).txBytes =
        s.txBytes + (ios.map (fun r => r.tx.length)).sum := by
  intro ios
  induction ios with
  | nil => intro s; simp
  | cons r rs ih =>
    intro s
    rw [List.foldl_cons, ih, List.map_cons, List.sum_cons]
    by_cases hr : r.rx.isEmpty
    · simp only [runStep, if_pos hr]
      omega
    · simp only [runStep, if_neg hr]
      omega

/-- Folding `runStep` adds the received response lengths to `rxBytes` (an
empty response contributes zero). -/
theorem runLoop_fold_rxBytes :
    ∀ (ios : List RoundTrip) (s : RunState),
      (List.foldl runStep s ios).rxBytes =
        s.rxBytes + (ios.map (fun r => r.rx.length)).sum := by
  intro ios
  induction ios with
  | nil => intro s; simp
  | cons r rs ih =>
    intro s
    rw [List.foldl_cons, ih, List.map_cons, List.sum_cons]
    by_cases hr : r.rx.isEmpty
    · have hlen : r.rx.length = 0 := by
        rw [List.isEmpty_iff] at hr
        rw [hr]
        rfl
      simp only [runStep, if_pos hr]
      omega
    · simp only [runStep, if_neg hr]
      omega

/-- The quiet branch of `runStep` (`if not len(rx): continue`). -/
theorem runStep_quiet (s : RunState) (r : RoundTrip) (hr : r.rx.isEmpty = true) :
    runStep s r = { s with itr := s.itr + 1, txBytes := s.txBytes + r.tx.length } := by
  unfold runStep
  rw [if_pos hr]

/-- The responsive branch of `runStep`. -/
theorem runStep_responsive (s : RunState) (r : RoundTrip) (hr : r.rx.isEmpty = false) :
    runStep s r =
      { s with
          itr := s.itr + 1,
          txBytes := s.txBytes + r.tx.length,
          rxBytes := s.rxBytes + r.rx.length,
          log := s.log ++ [⟨s.baudrate, s.parity, s.stopbits, r.tx, r.rx⟩] } := by
  unfold runStep
  rw [if_neg]
  rw [hr]
  exact Bool.false_ne_true

/-- Folding `runStep` appends one transcript block per responsive iteration,
in order, each built from the (unchanging) loop-local config variables of the
starting state. -/
theorem runLoop_fold_log :
    ∀ (ios : List RoundTrip) (s : RunState),
      (List.foldl runStep s ios).log =
        s.log ++ (ios.filter (fun r => !r.rx.isEmpty)).map
          (fun r => ⟨s.baudrate, s.parity, s.stopbits, r.tx, r.rx⟩) := by
  intro ios
  induction ios with
  | nil => intro s; simp
  | cons r rs ih =>
    intro s
    rw [List.foldl_cons, List.filter_cons]
    cases hr : r.rx.isEmpty with
    | true =>
      rw [runStep_quiet s r hr, ih]
      simp
    | false =>
      rw [runStep_responsive s r hr, ih]
      simp

/-- C5: every transcript block carries the loop-local config variables,
which are `None` at loop entry and never reassigned — the printed line is
always `baudrate=None, parity=None, stopbits=None`, not the configuration in
effect; exactly the iterations with a non-empty response are logged (in
order, with their frame and response), and empty-response iterations are
never logged. -/
theorem run_log_entries :
    ∀ ios : List RoundTrip,
      (runLoop ios).log =
        (ios.filter (fun r => !r.rx.isEmpty)).map
          (fun r => ⟨none, none, none, r.tx, r.rx⟩) := by
  intro ios
  unfold runLoop runInit
  rw [runLoop_fold_log]
  simp

/-- C7: `open_interval` and `print_interval` are 10 and 80; for every finite
run, the cumulative transmitted-byte counter equals the sum of the sent frame
lengths and the cumulative received-byte counter equals the sum of the
response lengths (this holds for every prefix, hence at every iteration); in
particular, over 80 iterations against a channel that never responds,
`tx_bytes` is the sum of the 80 frame lengths and `rx_bytes` is 0. -/
theorem run_counter_invariant :
    open_interval = 10 ∧ print_interval = 80 ∧
    (∀ ios : List RoundTrip,
      (runLoop ios).txBytes = (ios.map (fun r => r.tx.length)).sum ∧
      (runLoop ios).rxBytes = (ios.map (fun r => r.rx.length)).sum) ∧
    (∀ ios : List RoundTrip, (∀ r ∈ ios, r.rx = []) → ios.length = 80 →
      (runLoop ios).txBytes = (ios.map (fun r => r.tx.length)).sum ∧
      (runLoop ios).rxBytes = 0) := by
  refine ⟨rfl, rfl, ?_, ?_⟩
  · intro ios
    constructor
    · unfold runLoop runInit
      rw [runLoop_fold_txBytes]
      simp
    · unfold runLoop runInit
      rw [runLoop_fold_rxBytes]
      simp
  · intro ios hrx _
    constructor
    · unfold runLoop runInit
      rw [runLoop_fold_txBytes]
      simp
    · unfold runLoop runInit
      rw [runLoop_fold_rxBytes]
      have hz : ∀ x ∈ ios.map (fun r => r.rx.length), x = 0 := by
        intro x hx
        obtain ⟨r, hr, rfl⟩ := List.mem_map.1 hx
        rw [hrx r hr]
        rfl
      rw [List.sum_eq_zero hz]
      rfl

/-- Witness for `run_counter_invariant`: 80 iterations, each sending 2 bytes
and receiving nothing. -/
theorem run_counter_invariant_witness :
    (runLoop (List.replicate 80 ⟨[1, 2], []⟩)).rxBytes = 0 ∧
    (runLoop (List.replicate 80 ⟨[1, 2], []⟩)).txBytes = 160 := by
  have h := run_counter_invariant.2.2.2 (List.replicate 80 ⟨[1, 2], []⟩)
    (by
      intro r hr
      rw [List.eq_of_mem_replicate hr]) (by decide)
  exact ⟨h.2, h.1.trans (by decide)⟩

/-- C6: without any caller override, only the three flow-control lists
default to a single value; the baud-rate, parity and stop-bit lists default
to 4, 5 and 3 candidates respectively (all variants, not a single most
common value), and the `--aggressive` lists of `main()` produce exactly the
same constructed state as no override at all — the flag widens nothing. -/
theorem sfuzz_init_defaults :
    (sfuzzInit none none none).rtsctss = [false] ∧
    (sfuzzInit none none none).dsrdtrs = [false] ∧
    (sfuzzInit none none none).xonxoffs = [false] ∧
    (sfuzzInit none none none).baudrates.length = 4 ∧
    (sfuzzInit none none none).parities.length = 5 ∧
    (sfuzzInit none none none).stopbitss.length = 3 ∧
    sfuzzInit none (some mainAggressiveParities) (some mainAggressiveStopbitss) =
      sfuzzInit none none none := by
  decide
